import Mathlib

/-
Verification of gohar-dl-bot (src/bot.py): a shallow embedding of the
quality-ladder resolver, size estimation, session/callback handling, the
download executor, the progress throttler and the dispatch loop, together
with theorems settling the specification's claims.

Modelling conventions:
- Python `dict.get` fields become `Option` fields; Python truthiness
  (None, 0 and "" are falsy) is modelled explicitly at each use site.
- Python floats that only feed user-visible rendering are modelled as
  exact rationals; `round` is modelled as round-half-to-even (pyRound).
- External effects (Telegram sends/edits, yt-dlp download, the send call)
  are modelled as explicit outcome parameters and result fields.
-/

namespace Bot

/-- The fixed resolution ladder, `common` in `pick_bucket` (bot.py:95). -/
def COMMON : List Nat := [144, 240, 360, 480, 720, 1080, 1440, 2160]

/-- One raw rendition candidate, i.e. one entry of `info["formats"]` as read
by bot.py: only the keys the program consults are modelled. -/
structure Fmt where
  filesize : Option Nat
  filesize_approx : Option Nat
  tbr : Option Nat
  height : Option Nat
  format_id : Option String
  ext : Option String
  vcodec : Option String
  acodec : Option String
deriving DecidableEq

/-- Python `a or b` on optional numbers: `a` unless it is falsy (absent
or zero), else `b`. -/
def pyOrN (a b : Option Nat) : Option Nat :=
  match a with
  | some n => if n = 0 then b else some n
  | none => b

/-- `pick_bucket` (bot.py:92-99): falsy height gives None; otherwise the
smallest ladder value that is at least the height, with 2160 as the cap. -/
def pick_bucket (height : Option Nat) : Option Nat :=
  match height with
  | none => none
  | some h =>
    if h = 0 then none
    else
      match COMMON.find? (fun q => decide (h ≤ q)) with
      | some q => some q
      | none => some 2160

/-- The `tbr`-based fallback inside `estimate_filesize_bytes`
(bot.py:110-113): `int((tbr * 1000 * duration) / 8)` when both `tbr` and
`duration` are truthy, else None. Nat division is the floor. -/
def estFromTbr (f : Fmt) (duration : Nat) : Option Nat :=
  match f.tbr with
  | some t => if t ≠ 0 ∧ duration ≠ 0 then some (t * 1000 * duration / 8) else none
  | none => none

/-- `estimate_filesize_bytes` (bot.py:106-113):
`fs = fmt.get("filesize") or fmt.get("filesize_approx"); if fs: return fs`,
else the bitrate fallback. A reported size of 0 is falsy in Python and is
therefore skipped. -/
def estimate_filesize_bytes (f : Fmt) (duration : Nat) : Option Nat :=
  match pyOrN f.filesize f.filesize_approx with
  | some n => if n = 0 then estFromTbr f duration else some n
  | none => estFromTbr f duration

/-- Association-list lookup, the model of Python `dict` lookup used for
`q_to_fmt`, `q_sizes` and `STATE`. -/
def lookupN {α β : Type} [DecidableEq α] (l : List (α × β)) (k : α) : Option β :=
  match l with
  | [] => none
  | (k2, v) :: rest => if k2 = k then some v else lookupN rest k

/-- Association-list store `d[k] = v`: replace the binding if the key is
present, else append it. -/
def updateAssoc {α β : Type} [DecidableEq α] (l : List (α × β)) (k : α) (v : β) :
    List (α × β) :=
  match l with
  | [] => [(k, v)]
  | (k2, v2) :: rest =>
    if k2 = k then (k, v) :: rest else (k2, v2) :: updateAssoc rest k v

/-- The two dictionaries built up by `build_video_choices` (bot.py:150-151). -/
structure ScanState where
  q_to_fmt : List (Nat × String)
  q_sizes : List (Nat × Nat)
deriving DecidableEq

def initScan : ScanState := ⟨[], []⟩

/-- `consider(f)` (bot.py:153-167): bucket the candidate's height, skip it
when the bucket or the format id is falsy, record the first format id per
bucket, and fold a truthy size estimate into the bucket's running maximum. -/
def consider (duration : Nat) (st : ScanState) (f : Fmt) : ScanState :=
  match pick_bucket f.height with
  | none => st
  | some q =>
    match f.format_id with
    | none => st
    | some fmt_id =>
      if fmt_id = "" then st
      else
        let q_to_fmt :=
          if (lookupN st.q_to_fmt q).isSome then st.q_to_fmt
          else st.q_to_fmt ++ [(q, fmt_id)]
        let q_sizes :=
          match estimate_filesize_bytes f duration with
          | some est =>
            if est = 0 then st.q_sizes
            else updateAssoc st.q_sizes q (max ((lookupN st.q_sizes q).getD 0) est)
          | none => st.q_sizes
        ⟨q_to_fmt, q_sizes⟩

/-- One tier of `build_video_choices`: call `consider` on each candidate of
the (already filtered) list, in order. -/
def scanAll (duration : Nat) (fs : List Fmt) (st : ScanState) : ScanState :=
  fs.foldl (consider duration) st

/-- Tier 1 filter (bot.py:170-177): mp4 with both codecs present. -/
def tier1 (f : Fmt) : Bool :=
  decide (f.ext = some "mp4") && decide (f.vcodec ≠ some "none") &&
    decide (f.acodec ≠ some "none")

/-- Tier 2 filter (bot.py:181-188): mp4 video-only. -/
def tier2 (f : Fmt) : Bool :=
  decide (f.ext = some "mp4") && decide (f.vcodec ≠ some "none") &&
    decide (f.acodec = some "none")

/-- Tier 3 filter (bot.py:192-198): webm/mkv video-only. -/
def tier3 (f : Fmt) : Bool :=
  decide (f.vcodec ≠ some "none") && decide (f.acodec = some "none") &&
    (decide (f.ext = some "webm") || decide (f.ext = some "mkv"))

/-- `build_video_choices` (bot.py:140-201): the three-tier cascade, where a
later tier runs only when the map is still empty, followed by sorting the
bucket keys. -/
def build_video_choices (formats : List Fmt) (duration : Nat) :
    List Nat × List (Nat × String) × List (Nat × Nat) :=
  let st1 := scanAll duration (formats.filter tier1) initScan
  let st2 := if st1.q_to_fmt = [] then scanAll duration (formats.filter tier2) st1 else st1
  let st3 := if st2.q_to_fmt = [] then scanAll duration (formats.filter tier3) st2 else st2
  ((st3.q_to_fmt.map Prod.fst).insertionSort (· ≤ ·), st3.q_to_fmt, st3.q_sizes)

/-- The format token the scan actually records for a candidate: its
`format_id` when that is truthy, else nothing (bot.py:158-160). -/
def tokenOf (f : Fmt) : Option String :=
  match f.format_id with
  | some s => if s = "" then none else some s
  | none => none

/-- The size estimate the scan actually records for a candidate: the truthy
estimate, else nothing (bot.py:165-167). -/
def estOf (f : Fmt) (d : Nat) : Option Nat :=
  match estimate_filesize_bytes f d with
  | some e => if e = 0 then none else some e
  | none => none

/-- `myOr a b` is `a` unless it is `none`, else `b` (left-biased choice). -/
def myOr {α : Type} (a b : Option α) : Option α :=
  match a with
  | some v => some v
  | none => b

/-- Spec-side definition (refinement target for C1): the format token of the
first candidate in the scanned sequence that maps into bucket `q`, i.e. the
first one whose height buckets to `q` and whose format id is truthy. -/
def firstToken (fs : List Fmt) (q : Nat) : Option String :=
  match fs with
  | [] => none
  | f :: rest =>
    if pick_bucket f.height = some q ∧ (tokenOf f).isSome = true then tokenOf f
    else firstToken rest q

/-- The candidate sequence that actually populates the ladder: the first
tier (in cascade order) whose scan yields at least one bucket, as a
filtered list in original candidate order. -/
def effectiveCandidates (formats : List Fmt) (duration : Nat) : List Fmt :=
  if (scanAll duration (formats.filter tier1) initScan).q_to_fmt = [] then
    if (scanAll duration (formats.filter tier2) initScan).q_to_fmt = [] then
      formats.filter tier3
    else formats.filter tier2
  else formats.filter tier1

/-- Spec-side definition (for C3): the maximum of a list of sizes, absent
for the empty list. -/
def listMax : List Nat → Option Nat
  | [] => none
  | n :: rest => some (rest.foldl max n)

/-- The running-maximum fold that `consider` performs on a bucket's
recorded size. -/
def runMax (o : Option Nat) (l : List Nat) : Option Nat :=
  l.foldl (fun acc e => some (max (acc.getD 0) e)) o

/-- Spec-side definition (for C3): the truthy size estimates of the
candidates of a scanned sequence that map into bucket `q`, in scan order. -/
def bucketEsts (d : Nat) (fs : List Fmt) (q : Nat) : List Nat :=
  fs.filterMap (fun f =>
    if pick_bucket f.height = some q ∧ (tokenOf f).isSome = true then estOf f d
    else none)

/-! ### Association-list lemmas -/

theorem lookupN_eq_none_iff {α β : Type} [DecidableEq α]
    (l : List (α × β)) (k : α) :
    lookupN l k = none ↔ k ∉ l.map Prod.fst := by
  induction l with
  | nil => simp [lookupN]
  | cons p rest ih =>
    obtain ⟨k2, v⟩ := p
    by_cases h : k2 = k
    · subst h
      simp [lookupN]
    · simp [lookupN, h, ih, Ne.symm h]

theorem lookupN_append {α β : Type} [DecidableEq α]
    (l m : List (α × β)) (k : α) :
    lookupN (l ++ m) k = myOr (lookupN l k) (lookupN m k) := by
  induction l with
  | nil => simp [lookupN, myOr]
  | cons p rest ih =>
    obtain ⟨k2, v⟩ := p
    by_cases h : k2 = k
    · simp [lookupN, h, myOr]
    · simp [lookupN, h, ih]

theorem lookupN_updateAssoc_self {α β : Type} [DecidableEq α]
    (l : List (α × β)) (k : α) (v : β) :
    lookupN (updateAssoc l k v) k = some v := by
  induction l with
  | nil => simp [updateAssoc, lookupN]
  | cons p rest ih =>
    obtain ⟨k2, v2⟩ := p
    by_cases h : k2 = k
    · simp [updateAssoc, h, lookupN]
    · simp [updateAssoc, h, lookupN, ih]

theorem lookupN_updateAssoc_ne {α β : Type} [DecidableEq α]
    (l : List (α × β)) (k k2 : α) (v : β) (h : k2 ≠ k) :
    lookupN (updateAssoc l k v) k2 = lookupN l k2 := by
  have hne : ¬ k = k2 := fun hh => h hh.symm
  induction l with
  | nil => simp [updateAssoc, lookupN, hne]
  | cons p rest ih =>
    obtain ⟨k3, v3⟩ := p
    by_cases hk : k3 = k
    · subst hk
      simp [updateAssoc, lookupN, hne]
    · by_cases h2 : k3 = k2
      · subst h2
        simp [updateAssoc, hk, lookupN]
      · simp [updateAssoc, hk, lookupN, h2, ih]

theorem myOr_none_right {α : Type} (a : Option α) : myOr a none = a := by
  cases a <;> rfl

theorem myOr_assoc {α : Type} (a b c : Option α) :
    myOr (myOr a b) c = myOr a (myOr b c) := by
  cases a <;> rfl

/-! ### `consider` case lemmas -/

theorem consider_of_bucket_none (d : Nat) (st : ScanState) (f : Fmt)
    (h : pick_bucket f.height = none) : consider d st f = st := by
  unfold consider
  rw [h]

theorem consider_of_token_none (d : Nat) (st : ScanState) (f : Fmt)
    (h : tokenOf f = none) : consider d st f = st := by
  unfold consider
  unfold tokenOf at h
  cases hq : pick_bucket f.height
  · rfl
  · cases hid : f.format_id with
    | none => rfl
    | some s =>
      rw [hid] at h
      by_cases hs : s = ""
      · simp [hs]
      · simp [hs] at h

theorem consider_of_valid (d : Nat) (st : ScanState) (f : Fmt) (q : Nat)
    (fid : String) (hq : pick_bucket f.height = some q)
    (ht : tokenOf f = some fid) :
    consider d st f =
      ⟨(if (lookupN st.q_to_fmt q).isSome then st.q_to_fmt
        else st.q_to_fmt ++ [(q, fid)]),
       (match estimate_filesize_bytes f d with
        | some est =>
          if est = 0 then st.q_sizes
          else updateAssoc st.q_sizes q (max ((lookupN st.q_sizes q).getD 0) est)
        | none => st.q_sizes)⟩ := by
  unfold tokenOf at ht
  cases hid : f.format_id with
  | none => rw [hid] at ht; exact absurd ht (by simp)
  | some s =>
    rw [hid] at ht
    by_cases hs : s = ""
    · simp [hs] at ht
    · simp only [hs, if_neg, ite_false] at ht
      have hsf : s = fid := by
        simpa using ht
      subst hsf
      unfold consider
      rw [hq, hid]
      simp [hs]

/-! ### Scan lemmas -/

theorem scanAll_cons (d : Nat) (f : Fmt) (fs : List Fmt) (st : ScanState) :
    scanAll d (f :: fs) st = scanAll d fs (consider d st f) := rfl

theorem scanAll_concat (d : Nat) (fs : List Fmt) (f : Fmt) (st : ScanState) :
    scanAll d (fs ++ [f]) st = consider d (scanAll d fs st) f := by
  simp [scanAll, List.foldl_append]

theorem consider_qf_extend (d : Nat) (st : ScanState) (f : Fmt) :
    ∃ t, (consider d st f).q_to_fmt = st.q_to_fmt ++ t := by
  cases hq : pick_bucket f.height with
  | none => exact ⟨[], by rw [consider_of_bucket_none d st f hq]; simp⟩
  | some q =>
    cases ht : tokenOf f with
    | none => exact ⟨[], by rw [consider_of_token_none d st f ht]; simp⟩
    | some fid =>
      rw [consider_of_valid d st f q fid hq ht]
      by_cases hl : (lookupN st.q_to_fmt q).isSome
      · exact ⟨[], by simp [hl]⟩
      · exact ⟨[(q, fid)], by simp [hl]⟩

theorem scanAll_qf_extend (d : Nat) (fs : List Fmt) :
    ∀ st, ∃ t, (scanAll d fs st).q_to_fmt = st.q_to_fmt ++ t := by
  induction fs with
  | nil => exact fun st => ⟨[], by simp [scanAll]⟩
  | cons f rest ih =>
    intro st
    obtain ⟨t1, h1⟩ := consider_qf_extend d st f
    obtain ⟨t2, h2⟩ := ih (consider d st f)
    exact ⟨t1 ++ t2, by rw [scanAll_cons, h2, h1, List.append_assoc]⟩

theorem scanAll_init_of_qf_empty (d : Nat) (fs : List Fmt)
    (h : (scanAll d fs initScan).q_to_fmt = []) :
    scanAll d fs initScan = initScan := by
  induction fs with
  | nil => rfl
  | cons f rest ih =>
    rw [scanAll_cons] at h ⊢
    cases hq : pick_bucket f.height with
    | none =>
      rw [consider_of_bucket_none d initScan f hq] at h ⊢
      exact ih h
    | some q =>
      cases ht : tokenOf f with
      | none =>
        rw [consider_of_token_none d initScan f ht] at h ⊢
        exact ih h
      | some fid =>
        exfalso
        rw [consider_of_valid d initScan f q fid hq ht] at h
        obtain ⟨t, hext⟩ := scanAll_qf_extend d rest
          ⟨(if (lookupN initScan.q_to_fmt q).isSome then initScan.q_to_fmt
            else initScan.q_to_fmt ++ [(q, fid)]),
           (match estimate_filesize_bytes f d with
            | some est =>
              if est = 0 then initScan.q_sizes
              else updateAssoc initScan.q_sizes q
                (max ((lookupN initScan.q_sizes q).getD 0) est)
            | none => initScan.q_sizes)⟩
        rw [hext] at h
        simp [initScan, lookupN] at h

theorem scanAll_lookup_firstToken (d : Nat) (fs : List Fmt) :
    ∀ (st : ScanState) (q : Nat),
    lookupN (scanAll d fs st).q_to_fmt q =
      myOr (lookupN st.q_to_fmt q) (firstToken fs q) := by
  induction fs with
  | nil => intro st q; simp [scanAll, firstToken, myOr_none_right]
  | cons f rest ih =>
    intro st q
    rw [scanAll_cons, ih]
    cases hq : pick_bucket f.height with
    | none =>
      rw [consider_of_bucket_none d st f hq]
      have hft : firstToken (f :: rest) q = firstToken rest q := by
        simp [firstToken, hq]
      rw [hft]
    | some q1 =>
      cases ht : tokenOf f with
      | none =>
        rw [consider_of_token_none d st f ht]
        have hft : firstToken (f :: rest) q = firstToken rest q := by
          simp [firstToken, ht]
        rw [hft]
      | some fid =>
        rw [consider_of_valid d st f q1 fid hq ht]
        by_cases hqq : q1 = q
        · subst hqq
          have hft : firstToken (f :: rest) q1 = some fid := by
            simp [firstToken, hq, ht]
          rw [hft]
          cases hl : lookupN st.q_to_fmt q1 with
          | some v => simp [hl, myOr]
          | none =>
            simp only [hl, Option.isSome_none, Bool.false_eq_true, if_false]
            rw [lookupN_append]
            simp [hl, lookupN, myOr]
        · have hft : firstToken (f :: rest) q = firstToken rest q := by
            simp [firstToken, hq, hqq]
          rw [hft]
          have hlk : lookupN
              (if (lookupN st.q_to_fmt q1).isSome then st.q_to_fmt
               else st.q_to_fmt ++ [(q1, fid)]) q = lookupN st.q_to_fmt q := by
            by_cases hl : (lookupN st.q_to_fmt q1).isSome
            · simp [hl]
            · rw [Bool.not_eq_true] at hl
              simp only [hl, Bool.false_eq_true, if_false]
              rw [lookupN_append]
              simp [lookupN, hqq, myOr_none_right]
          simp only []
          rw [hlk]

theorem scanAll_lookup_sizes (d : Nat) (fs : List Fmt) :
    ∀ (st : ScanState) (q : Nat),
    lookupN (scanAll d fs st).q_sizes q =
      runMax (lookupN st.q_sizes q) (bucketEsts d fs q) := by
  induction fs with
  | nil => intro st q; simp [scanAll, bucketEsts, runMax]
  | cons f rest ih =>
    intro st q
    rw [scanAll_cons, ih]
    cases hq : pick_bucket f.height with
    | none =>
      rw [consider_of_bucket_none d st f hq]
      simp [bucketEsts, hq]
    | some q1 =>
      cases ht : tokenOf f with
      | none =>
        rw [consider_of_token_none d st f ht]
        simp [bucketEsts, ht]
      | some fid =>
        rw [consider_of_valid d st f q1 fid hq ht]
        by_cases hqq : q1 = q
        · subst hqq
          cases he : estimate_filesize_bytes f d with
          | none =>
            simp [bucketEsts, hq, ht, estOf, he]
          | some e =>
            by_cases he0 : e = 0
            · simp [bucketEsts, hq, ht, estOf, he, he0]
            · simp [bucketEsts, hq, ht, estOf, he, he0,
                lookupN_updateAssoc_self, runMax]
        · cases he : estimate_filesize_bytes f d with
          | none =>
            simp [bucketEsts, hq, ht, estOf, he, hqq]
          | some e =>
            by_cases he0 : e = 0
            · simp [bucketEsts, hq, ht, estOf, he, he0, hqq]
            · have hne : q ≠ q1 := fun hh => hqq hh.symm
              simp [bucketEsts, hq, ht, estOf, he, he0, hqq,
                lookupN_updateAssoc_ne _ _ _ _ hne]

theorem pick_bucket_mem (h : Option Nat) (q : Nat)
    (hq : pick_bucket h = some q) : q ∈ COMMON := by
  cases h with
  | none => simp [pick_bucket] at hq
  | some n =>
    simp only [pick_bucket] at hq
    by_cases hn : n = 0
    · simp [hn] at hq
    · rw [if_neg hn] at hq
      cases hf : COMMON.find? (fun q2 => decide (n ≤ q2)) with
      | some q2 =>
        rw [hf] at hq
        have : q2 = q := by simpa using hq
        subst this
        exact List.mem_of_find?_eq_some hf
      | none =>
        rw [hf] at hq
        have : (2160 : Nat) = q := by simpa using hq
        subst this
        decide

theorem scanAll_keys_nodup (d : Nat) (fs : List Fmt) :
    ∀ st : ScanState, (st.q_to_fmt.map Prod.fst).Nodup →
      ((scanAll d fs st).q_to_fmt.map Prod.fst).Nodup := by
  induction fs with
  | nil => exact fun st h => h
  | cons f rest ih =>
    intro st h
    rw [scanAll_cons]
    apply ih
    cases hq : pick_bucket f.height with
    | none => rw [consider_of_bucket_none d st f hq]; exact h
    | some q =>
      cases ht : tokenOf f with
      | none => rw [consider_of_token_none d st f ht]; exact h
      | some fid =>
        rw [consider_of_valid d st f q fid hq ht]
        by_cases hl : (lookupN st.q_to_fmt q).isSome
        · simpa [hl] using h
        · rw [Bool.not_eq_true] at hl
          have hnotin : q ∉ st.q_to_fmt.map Prod.fst :=
            (lookupN_eq_none_iff _ _).mp (Option.not_isSome_iff_eq_none.mp (by simp [hl]))
          simp only [hl, Bool.false_eq_true, if_false]
          simp only [List.map_append, List.map_cons, List.map_nil]
          exact List.Nodup.append h (List.nodup_singleton q)
            (by
              intro x hx hx2
              have hxq : x = q := by simpa using hx2
              subst hxq
              exact hnotin hx)

theorem scanAll_keys_mem (d : Nat) (fs : List Fmt) :
    ∀ st : ScanState, (∀ k ∈ st.q_to_fmt.map Prod.fst, k ∈ COMMON) →
      ∀ k ∈ (scanAll d fs st).q_to_fmt.map Prod.fst, k ∈ COMMON := by
  induction fs with
  | nil => exact fun st h => h
  | cons f rest ih =>
    intro st h
    rw [scanAll_cons]
    apply ih
    cases hq : pick_bucket f.height with
    | none => rw [consider_of_bucket_none d st f hq]; exact h
    | some q =>
      cases ht : tokenOf f with
      | none => rw [consider_of_token_none d st f ht]; exact h
      | some fid =>
        rw [consider_of_valid d st f q fid hq ht]
        by_cases hl : (lookupN st.q_to_fmt q).isSome
        · simpa [hl] using h
        · rw [Bool.not_eq_true] at hl
          simp only [hl, Bool.false_eq_true, if_false]
          intro k hk
          simp only [List.map_append, List.map_cons, List.map_nil,
            List.mem_append, List.mem_singleton] at hk
          cases hk with
          | inl hk => exact h k hk
          | inr hk => exact hk ▸ pick_bucket_mem f.height q hq

/-- A strictly sorted list is a sublist of any strictly sorted list that
contains all its elements. -/
theorem sublist_of_pairwise_lt_subset :
    ∀ (L l : List Nat), l.Pairwise (· < ·) → L.Pairwise (· < ·) →
      (∀ x ∈ l, x ∈ L) → l.Sublist L := by
  intro L
  induction L with
  | nil =>
    intro l _ _ hsub
    cases l with
    | nil => exact List.Sublist.refl []
    | cons a l2 => exact absurd (hsub a (by simp)) (by simp)
  | cons b L2 ihL =>
    intro l hl hL hsub
    cases l with
    | nil => exact List.nil_sublist _
    | cons a l2 =>
      have hbL2 : ∀ y ∈ L2, b < y := fun y hy => (List.pairwise_cons.mp hL).1 y hy
      have hal2 : ∀ y ∈ l2, a < y := fun y hy => (List.pairwise_cons.mp hl).1 y hy
      by_cases hab : a = b
      · subst hab
        apply List.Sublist.cons₂
        apply ihL l2 (List.pairwise_cons.mp hl).2 (List.pairwise_cons.mp hL).2
        intro x hx
        have hxa : a < x := hal2 x hx
        have : x ∈ a :: L2 := hsub x (by simp [hx])
        rcases List.mem_cons.mp this with hxe | hxm
        · exact absurd hxe (ne_of_gt hxa)
        · exact hxm
      · have haL2 : a ∈ L2 := by
          rcases List.mem_cons.mp (hsub a (by simp)) with hxe | hxm
          · exact absurd hxe hab
          · exact hxm
        apply List.Sublist.cons
        apply ihL (a :: l2) hl (List.pairwise_cons.mp hL).2
        intro x hx
        rcases List.mem_cons.mp hx with hxe | hxm
        · exact hxe ▸ haL2
        · have hax : a < x := hal2 x hxm
          have hba : b < a := hbL2 a haL2
          rcases List.mem_cons.mp (hsub x hx) with hxe2 | hxm2
          · exact absurd hxe2 (ne_of_gt (lt_trans hba hax))
          · exact hxm2

theorem runMax_some (l : List Nat) : ∀ a : Nat, runMax (some a) l = some (l.foldl max a) := by
  induction l with
  | nil => intro a; rfl
  | cons e rest ih =>
    intro a
    simp [runMax, List.foldl_cons] at ih ⊢
    exact ih (max a e)

theorem runMax_none_eq_listMax (l : List Nat) : runMax none l = listMax l := by
  cases l with
  | nil => rfl
  | cons n rest =>
    have h0 : runMax (none : Option Nat) (n :: rest) = runMax (some (max 0 n)) rest := rfl
    rw [h0, runMax_some]
    simp [listMax]

/-- The final scan state of `build_video_choices` is the scan of the
effective (winning-tier) candidate list from the empty state. -/
theorem build_video_choices_eq_eff (formats : List Fmt) (d : Nat) :
    build_video_choices formats d =
      (((scanAll d (effectiveCandidates formats d) initScan).q_to_fmt.map Prod.fst).insertionSort (· ≤ ·),
       (scanAll d (effectiveCandidates formats d) initScan).q_to_fmt,
       (scanAll d (effectiveCandidates formats d) initScan).q_sizes) := by
  unfold build_video_choices effectiveCandidates
  by_cases h1 : (scanAll d (formats.filter tier1) initScan).q_to_fmt = []
  · have e1 : scanAll d (formats.filter tier1) initScan = initScan :=
      scanAll_init_of_qf_empty d _ h1
    by_cases h2 : (scanAll d (formats.filter tier2) initScan).q_to_fmt = []
    · have e2 : scanAll d (formats.filter tier2) initScan = initScan :=
        scanAll_init_of_qf_empty d _ h2
      simp only [h1, h2, e1, e2]
      simp [initScan]
    · simp only [h1, e1]
      simp only [initScan] at h2 ⊢
      simp [h2]
  · simp [h1]

/-! ### Claims C1, C2, C3 -/

/-- C1: for every candidate list and duration, the bucket list returned by
`build_video_choices`, listed in ascending order, is a strictly increasing
subsequence of {144,240,360,480,720,1080,1440,2160}; and each bucket maps
to the format token of the first candidate that mapped into that bucket
under the fixed scan order (the winning tier's candidates in original
order) — later candidates never replace it. -/
theorem C1_ladder_shape_and_first_token (formats : List Fmt) (d : Nat) :
    List.Chain' (· < ·) (build_video_choices formats d).1
    ∧ (build_video_choices formats d).1.Sublist COMMON
    ∧ ∀ q : Nat, lookupN (build_video_choices formats d).2.1 q =
        firstToken (effectiveCandidates formats d) q := by
  rw [build_video_choices_eq_eff]
  dsimp only
  have hnodup : (((scanAll d (effectiveCandidates formats d) initScan).q_to_fmt).map Prod.fst).Nodup :=
    scanAll_keys_nodup d _ initScan (by simp [initScan])
  have hmem : ∀ k ∈ ((scanAll d (effectiveCandidates formats d) initScan).q_to_fmt).map Prod.fst,
      k ∈ COMMON :=
    scanAll_keys_mem d _ initScan (by simp [initScan])
  have hsorted :
      List.Sorted (· ≤ ·)
        ((((scanAll d (effectiveCandidates formats d) initScan).q_to_fmt).map Prod.fst).insertionSort (· ≤ ·)) :=
    List.sorted_insertionSort _ _
  have hperm :
      ((((scanAll d (effectiveCandidates formats d) initScan).q_to_fmt).map Prod.fst).insertionSort (· ≤ ·)).Perm
        (((scanAll d (effectiveCandidates formats d) initScan).q_to_fmt).map Prod.fst) :=
    List.perm_insertionSort _ _
  have hnodup2 :
      ((((scanAll d (effectiveCandidates formats d) initScan).q_to_fmt).map Prod.fst).insertionSort (· ≤ ·)).Nodup :=
    hperm.nodup_iff.mpr hnodup
  have hpl :
      ((((scanAll d (effectiveCandidates formats d) initScan).q_to_fmt).map Prod.fst).insertionSort (· ≤ ·)).Pairwise (· < ·) :=
    hsorted.lt_of_le hnodup2
  refine ⟨hpl.chain', ?_, ?_⟩
  · apply sublist_of_pairwise_lt_subset COMMON _ hpl (by decide)
    intro x hx
    exact hmem x (hperm.mem_iff.mp hx)
  · intro q
    have h := scanAll_lookup_firstToken d (effectiveCandidates formats d) initScan q
    have h0 : lookupN initScan.q_to_fmt q = none := rfl
    rw [h0] at h
    simpa [myOr] using h

/-- C2: if the tier-1 scan (mp4 candidates with both codecs) populates at
least one bucket, then tiers 2 and 3 contribute nothing: the result of
`build_video_choices` equals what the tier-1 scan alone produces. -/
theorem C2_tier_short_circuit (formats : List Fmt) (d : Nat)
    (h : (scanAll d (formats.filter tier1) initScan).q_to_fmt ≠ []) :
    build_video_choices formats d =
      (((scanAll d (formats.filter tier1) initScan).q_to_fmt.map Prod.fst).insertionSort (· ≤ ·),
       (scanAll d (formats.filter tier1) initScan).q_to_fmt,
       (scanAll d (formats.filter tier1) initScan).q_sizes) := by
  unfold build_video_choices
  simp [h]

/-- A muxed 360p mp4 candidate: tier 1 accepts it. -/
def fmtA : Fmt :=
  ⟨some 1000, none, none, some 360, some "18", some "mp4", some "avc1", some "mp4a"⟩

theorem C2_witness :
    (scanAll 60 ([fmtA].filter tier1) initScan).q_to_fmt ≠ [] ∧
    build_video_choices [fmtA] 60 =
      (((scanAll 60 ([fmtA].filter tier1) initScan).q_to_fmt.map Prod.fst).insertionSort (· ≤ ·),
       (scanAll 60 ([fmtA].filter tier1) initScan).q_to_fmt,
       (scanAll 60 ([fmtA].filter tier1) initScan).q_sizes) :=
  ⟨by decide, C2_tier_short_circuit [fmtA] 60 (by decide)⟩

/-- C3: after any scan from the empty state, the size recorded for a
bucket equals the maximum of the truthy size estimates of the candidates
that mapped into it (absent when there were none); and appending one more
mapping candidate with estimate `e` turns the recorded size into
`max previous e` — a larger estimate raises it, a smaller one never
lowers it. -/
theorem C3_bucket_size_monotonic_max (d : Nat) (fs : List Fmt) (q : Nat) :
    lookupN (scanAll d fs initScan).q_sizes q = listMax (bucketEsts d fs q)
    ∧ ∀ (f : Fmt) (e : Nat), pick_bucket f.height = some q →
        (tokenOf f).isSome = true → estimate_filesize_bytes f d = some e → e ≠ 0 →
        lookupN (scanAll d (fs ++ [f]) initScan).q_sizes q =
          some (max ((lookupN (scanAll d fs initScan).q_sizes q).getD 0) e) := by
  constructor
  · rw [scanAll_lookup_sizes]
    have h0 : lookupN initScan.q_sizes q = none := rfl
    rw [h0, runMax_none_eq_listMax]
  · intro f e hq ht he he0
    rw [scanAll_concat]
    obtain ⟨fid, hfid⟩ := Option.isSome_iff_exists.mp ht
    rw [consider_of_valid d _ f q fid hq hfid]
    dsimp only
    rw [he]
    simp [he0, lookupN_updateAssoc_self]

/-- A muxed 480p mp4 candidate with a 100-byte reported size. -/
def c3f1 : Fmt :=
  ⟨some 100, none, none, some 480, some "a1", some "mp4", some "avc1", some "mp4a"⟩

/-- A muxed 470p mp4 candidate (bucket 480) with a 50-byte reported size. -/
def c3f2 : Fmt :=
  ⟨some 50, none, none, some 470, some "a2", some "mp4", some "avc1", some "mp4a"⟩

theorem C3_witness :
    lookupN (scanAll 60 ([c3f1] ++ [c3f2]) initScan).q_sizes 480 =
      some (max ((lookupN (scanAll 60 [c3f1] initScan).q_sizes 480).getD 0) 50) :=
  (C3_bucket_size_monotonic_max 60 [c3f1] 480).2 c3f2 50 (by decide) (by decide)
    (by decide) (by decide)

/-! ### Rendering helpers and claim C4 -/

/-- Floor of a rational, computed from numerator and denominator. -/
def ratFloor (x : ℚ) : ℤ := Int.fdiv x.num x.den

/-- Python `round` on an exact rational: round half to even. (bot.py uses
floats here; only the user-visible rendering depends on it.) -/
def pyRound (x : ℚ) : ℤ :=
  let f := ratFloor x
  let r := x - (f : ℚ)
  if r < 1 / 2 then f
  else if 1 / 2 < r then f + 1
  else if f % 2 = 0 then f else f + 1

def pad2 (n : Nat) : String := if n < 10 then "0" ++ toString n else toString n

/-- Python `f-string` formatting with one decimal digit, for a nonnegative
value. -/
def one_dec (x : ℚ) : String :=
  let t := (pyRound (x * 10)).toNat
  toString (t / 10) ++ "." ++ toString (t % 10)

/-- Python `f-string` formatting with two decimal digits, for a nonnegative
value. -/
def two_dec (x : ℚ) : String :=
  let c := (pyRound (x * 100)).toNat
  toString (c / 100) ++ "." ++ pad2 (c % 100)

/-- `bytes_to_mb` (bot.py:78-81): None for a falsy byte count, else the
exact number of mebibytes. -/
def bytes_to_mb (b : Option Nat) : Option ℚ :=
  match b with
  | some n => if n = 0 then none else some ((n : ℚ) / (1024 * 1024))
  | none => none

/-- `fmt_mb` (bot.py:83-85): one-decimal MB rendering, `"??MB"` when the
byte count is absent (or zero, which is falsy). -/
def fmt_mb (b : Option Nat) : String :=
  match bytes_to_mb b with
  | some m => one_dec m ++ "MB"
  | none => "??MB"

/-- The truthy (present and nonzero) value of an optional number. -/
def posOf (o : Option Nat) : Option Nat :=
  match o with
  | some n => if n = 0 then none else some n
  | none => none

/-- Spec-side definition (amended C4): the reported file size when a
nonzero one is present (preferring `filesize` over `filesize_approx`; a
reported zero is treated as absent); otherwise, with a nonzero bitrate and
a positive duration, `floor(tbr * 1000 * duration / 8)`; otherwise null. -/
def estimateSize_spec (f : Fmt) (d : Nat) : Option Nat :=
  match posOf f.filesize with
  | some n => some n
  | none =>
    match posOf f.filesize_approx with
    | some m => some m
    | none =>
      match f.tbr with
      | some t => if t ≠ 0 ∧ d ≠ 0 then some (t * 1000 * d / 8) else none
      | none => none

/-- A candidate whose reported file size is present but zero, and which
also carries a bitrate. -/
def c4f : Fmt := ⟨some 0, none, some 8, none, none, none, none, none⟩

/-- C4 counterexample: a reported file size is *present* (`some 0`), yet
`estimate_filesize_bytes` does not return it — Python truthiness skips a
zero report and falls through to the bitrate estimate (8 kbps x 1 s =
1000 bytes). -/
theorem C4_counterexample :
    c4f.filesize = some 0
    ∧ estimate_filesize_bytes c4f 1 = some 1000
    ∧ estimate_filesize_bytes c4f 1 ≠ c4f.filesize := by decide

/-- C4 (amended): `estimate_filesize_bytes` returns the reported file size
when a *nonzero* one is present (zero reports are treated as absent);
otherwise, when a nonzero bitrate and a positive duration are present, it
returns `floor(tbr * 1000 * duration / 8)` bytes; otherwise null — and a
null size is rendered to the user as the explicit unknown `"??MB"`, never
as zero. -/
theorem C4_estimate_amended (f : Fmt) (d : Nat) :
    estimate_filesize_bytes f d = estimateSize_spec f d ∧ fmt_mb none = "??MB" := by
  constructor
  · obtain ⟨fs, fsa, tbr, hh, fid, ex, vc, ac⟩ := f
    unfold estimate_filesize_bytes estimateSize_spec pyOrN posOf estFromTbr
    dsimp only
    cases fs with
    | none =>
      cases fsa with
      | none => rfl
      | some m =>
        by_cases hm : m = 0
        · simp [hm]
        · simp [hm]
    | some n =>
      by_cases hn : n = 0
      · cases fsa with
        | none => simp [hn]
        | some m =>
          by_cases hm : m = 0
          · simp [hn, hm]
          · simp [hn, hm]
      · simp [hn]
  · rfl

/-! ### Session store, selection callback and download executor -/

inductive Mode
  | video
  | audio
deriving DecidableEq

/-- One `STATE` entry (bot.py:511-518). -/
structure Session where
  url : String
  title : String
  duration : Nat
  q_to_fmt : List (Nat × String)
  q_sizes : List (Nat × Nat)
  audio_fmt_id : Option String
deriving DecidableEq

/-- A queued download job, as captured by the closures built in `dl_cb`. -/
structure Job where
  chat_id : Nat
  origin_msg_id : Nat
  mode : Mode
  fmt_id : Option String
deriving DecidableEq

/-- What the callback handler does: the callback answers it sends, and the
jobs it enqueues. -/
structure CbResult where
  answers : List String
  enqueued : List Job
deriving DecidableEq

/-- `dl_cb` (bot.py:526-558) after parsing the callback token into
`kind|chat_id|msg_id|q`: look the session up in `STATE`; an absent key is
answered with the expiry message and nothing is enqueued. -/
def dl_cb (state : List ((Nat × Nat) × Session)) (kind : String)
    (chat_id msg_id q : Nat) : CbResult :=
  match lookupN state (chat_id, msg_id) with
  | none => ⟨["SESSION EXPIRED. SEND LINK AGAIN."], []⟩
  | some st =>
    if kind = "a" then
      ⟨["⏳ QUEUED..."], [⟨chat_id, msg_id, Mode.audio, none⟩]⟩
    else if kind = "v" then
      match lookupN st.q_to_fmt q with
      | some fid =>
        if fid = "" then ⟨["⏳ QUEUED...", "QUALITY NOT AVAILABLE. SEND LINK AGAIN."], []⟩
        else ⟨["⏳ QUEUED..."], [⟨chat_id, msg_id, Mode.video, some fid⟩]⟩
      | none => ⟨["⏳ QUEUED...", "QUALITY NOT AVAILABLE. SEND LINK AGAIN."], []⟩
    else ⟨["⏳ QUEUED..."], []⟩

/-- The outcome of the yt-dlp fetch inside `run_download`: a local file of
a given byte size, or a raised error (its type name). -/
inductive FetchOutcome
  | ok (path : String) (sizeBytes : Nat)
  | err (name : String)
deriving DecidableEq

/-- The outcome of the Messenger send call inside `send_with_limit`. -/
inductive SendOutcome
  | delivered
  | raised (name : String)
deriving DecidableEq

/-- The observable trace of one `run_download` execution: messages sent,
status-message edits, the yt-dlp format expression used, whether a
download was performed, the artifact produced, and the files removed. -/
structure RunResult where
  sends : List String
  edits : List String
  formatExpr : Option String
  fetched : Bool
  artifact : Option String
  removed : List String
deriving DecidableEq

def MAX_FILE_MB : Nat := 1800

/-- The shared tail of `run_download` (bot.py:361-372) once the yt-dlp
options are built: edit STARTING, download, then `send_with_limit`
(inlined: refuse when `size_mb > MAX_FILE_MB`), edit the terminal status,
and `safe_remove` — which the except-branch does NOT reach. -/
def afterOpts (expr : String) (fetch : FetchOutcome) (send : SendOutcome) : RunResult :=
  match fetch with
  | FetchOutcome.err e =>
    ⟨["⛓️ INIT..."], ["⏳ STARTING DOWNLOAD...", "❌ ERROR: " ++ e], some expr, true, none, []⟩
  | FetchOutcome.ok path bytes =>
    if MAX_FILE_MB * 1024 * 1024 < bytes then
      ⟨["⛓️ INIT...",
        "❌ FILE TOO BIG: " ++ one_dec ((bytes : ℚ) / (1024 * 1024)) ++ "MB\n✅ اختار جودة أقل أو Audio."],
       ["⏳ STARTING DOWNLOAD...", "⚠️ DOWNLOADED BUT NOT SENT."], some expr, true, some path, [path]⟩
    else
      match send with
      | SendOutcome.delivered =>
        ⟨["⛓️ INIT..."], ["⏳ STARTING DOWNLOAD...", "✅ DONE."], some expr, true, some path, [path]⟩
      | SendOutcome.raised e =>
        ⟨["⛓️ INIT..."], ["⏳ STARTING DOWNLOAD...", "❌ ERROR: " ++ e], some expr, true, some path, []⟩

/-- The audio format expression (bot.py:342-343): the stored audio format
id when truthy, else `bestaudio/best`. -/
def audioExpr (st : Session) : String :=
  match st.audio_fmt_id with
  | some a => if a = "" then "bestaudio/best" else a
  | none => "bestaudio/best"

/-- `run_download` (bot.py:318-372): INIT message, session lookup (absent
keys abort with the expiry edit), mode dispatch, and the download tail. -/
def run_download (state : List ((Nat × Nat) × Session)) (chat_id origin_msg_id : Nat)
    (mode : Mode) (fmt_id : Option String) (fetch : FetchOutcome) (send : SendOutcome) :
    RunResult :=
  match lookupN state (chat_id, origin_msg_id) with
  | none => ⟨["⛓️ INIT..."], ["❌ SESSION EXPIRED. SEND LINK AGAIN."], none, false, none, []⟩
  | some st =>
    match mode with
    | Mode.audio => afterOpts (audioExpr st) fetch send
    | Mode.video =>
      match fmt_id with
      | none => ⟨["⛓️ INIT..."], ["❌ PICK A QUALITY BUTTON FIRST."], none, false, none, []⟩
      | some fid =>
        if fid = "" then
          ⟨["⛓️ INIT..."], ["❌ PICK A QUALITY BUTTON FIRST."], none, false, none, []⟩
        else afterOpts (fid ++ "/" ++ fid ++ "+bestaudio/best") fetch send

/-- C5: a selection callback whose (chatId, originMessageId) key is absent
from the session store answers with the expiry message and enqueues no
job (and, being a total function of its inputs, raises no unhandled
fault); likewise a job executed with an absent key edits the expiry
message and performs no download, produces no artifact and removes
nothing. -/
theorem C5_expired_session (state : List ((Nat × Nat) × Session)) (kind : String)
    (cid mid q : Nat) (mode : Mode) (fid : Option String)
    (fetch : FetchOutcome) (send : SendOutcome)
    (h : lookupN state (cid, mid) = none) :
    dl_cb state kind cid mid q = ⟨["SESSION EXPIRED. SEND LINK AGAIN."], []⟩
    ∧ run_download state cid mid mode fid fetch send =
        ⟨["⛓️ INIT..."], ["❌ SESSION EXPIRED. SEND LINK AGAIN."], none, false, none, []⟩ := by
  constructor
  · unfold dl_cb
    rw [h]
  · unfold run_download
    rw [h]

theorem C5_witness :
    lookupN ([] : List ((Nat × Nat) × Session)) (1, 2) = none
    ∧ (dl_cb [] "v" 1 2 480 = ⟨["SESSION EXPIRED. SEND LINK AGAIN."], []⟩
       ∧ run_download [] 1 2 Mode.video (some "18") (FetchOutcome.ok "f.mp4" 10)
           SendOutcome.delivered =
         ⟨["⛓️ INIT..."], ["❌ SESSION EXPIRED. SEND LINK AGAIN."], none, false, none, []⟩) :=
  ⟨rfl, C5_expired_session [] "v" 1 2 480 Mode.video (some "18")
    (FetchOutcome.ok "f.mp4" 10) SendOutcome.delivered rfl⟩

theorem afterOpts_delivered_removed (expr path : String) (bytes : Nat) :
    (afterOpts expr (FetchOutcome.ok path bytes) SendOutcome.delivered).removed = [path]
    ∧ (afterOpts expr (FetchOutcome.ok path bytes) SendOutcome.delivered).artifact = some path := by
  by_cases hb : MAX_FILE_MB * 1024 * 1024 < bytes
  · simp [afterOpts, hb]
  · simp [afterOpts, hb]

theorem afterOpts_raised_removed (expr path e : String) (bytes : Nat) :
    (afterOpts expr (FetchOutcome.ok path bytes) (SendOutcome.raised e)).removed =
      (if MAX_FILE_MB * 1024 * 1024 < bytes then [path] else [])
    ∧ (afterOpts expr (FetchOutcome.ok path bytes) (SendOutcome.raised e)).artifact = some path := by
  by_cases hb : MAX_FILE_MB * 1024 * 1024 < bytes
  · simp [afterOpts, hb]
  · simp [afterOpts, hb]

/-- The session/state used by the C6 theorems. -/
def c6sess : Session := ⟨"u", "t", 60, [(480, "18")], [], none⟩

def c6state : List ((Nat × Nat) × Session) := [((1, 2), c6sess)]

/-- C6 counterexample: a job execution that downloads an artifact and then
fails in the send step (the Messenger call raises) removes nothing — the
except-branch of `run_download` performs no cleanup, refuting removal "on
every terminal path". -/
theorem C6_counterexample :
    (run_download c6state 1 2 Mode.video (some "18") (FetchOutcome.ok "a.mp4" 1000)
        (SendOutcome.raised "ConnectionError")).artifact = some "a.mp4"
    ∧ (run_download c6state 1 2 Mode.video (some "18") (FetchOutcome.ok "a.mp4" 1000)
        (SendOutcome.raised "ConnectionError")).removed = [] := by decide

/-- C6 (amended): for a job that produces a local artifact, the artifact
is removed after a successful send and after a refused over-ceiling send;
but when the job fails after producing the artifact (the send raises), the
except handler performs no cleanup and the artifact is left on disk (the
refusal path, which precedes the send, still removes it). -/
theorem C6_cleanup_amended (state : List ((Nat × Nat) × Session)) (cid mid : Nat)
    (mode : Mode) (fid : Option String) (path : String) (bytes : Nat) (e : String)
    (hs : (lookupN state (cid, mid)).isSome = true)
    (hv : mode = Mode.video → ∃ f2, fid = some f2 ∧ f2 ≠ "") :
    (run_download state cid mid mode fid (FetchOutcome.ok path bytes)
        SendOutcome.delivered).removed = [path]
    ∧ (run_download state cid mid mode fid (FetchOutcome.ok path bytes)
        SendOutcome.delivered).artifact = some path
    ∧ (run_download state cid mid mode fid (FetchOutcome.ok path bytes)
        (SendOutcome.raised e)).removed =
        (if MAX_FILE_MB * 1024 * 1024 < bytes then [path] else [])
    ∧ (run_download state cid mid mode fid (FetchOutcome.ok path bytes)
        (SendOutcome.raised e)).artifact = some path := by
  obtain ⟨s, hsv⟩ := Option.isSome_iff_exists.mp hs
  unfold run_download
  rw [hsv]
  cases mode with
  | audio =>
    exact ⟨(afterOpts_delivered_removed _ _ _).1, (afterOpts_delivered_removed _ _ _).2,
      (afterOpts_raised_removed _ _ _ _).1, (afterOpts_raised_removed _ _ _ _).2⟩
  | video =>
    obtain ⟨f2, hf2, hne⟩ := hv rfl
    rw [hf2]
    simp only [hne, if_false]
    exact ⟨(afterOpts_delivered_removed _ _ _).1, (afterOpts_delivered_removed _ _ _).2,
      (afterOpts_raised_removed _ _ _ _).1, (afterOpts_raised_removed _ _ _ _).2⟩

theorem C6_witness :
    ((lookupN c6state (1, 2)).isSome = true)
    ∧ ((run_download c6state 1 2 Mode.video (some "18") (FetchOutcome.ok "b.mp4" 10)
          SendOutcome.delivered).removed = ["b.mp4"]
       ∧ (run_download c6state 1 2 Mode.video (some "18") (FetchOutcome.ok "b.mp4" 10)
          SendOutcome.delivered).artifact = some "b.mp4"
       ∧ (run_download c6state 1 2 Mode.video (some "18") (FetchOutcome.ok "b.mp4" 10)
          (SendOutcome.raised "SendError")).removed =
            (if MAX_FILE_MB * 1024 * 1024 < 10 then ["b.mp4"] else [])
       ∧ (run_download c6state 1 2 Mode.video (some "18") (FetchOutcome.ok "b.mp4" 10)
          (SendOutcome.raised "SendError")).artifact = some "b.mp4") :=
  ⟨by decide, C6_cleanup_amended c6state 1 2 Mode.video (some "18") "b.mp4" 10 "SendError"
    (by decide) (fun _ => ⟨"18", rfl, by decide⟩)⟩

/-! ### The URL handler and the duration gate -/

def MAX_DURATION_SEC : Nat := 3 * 60 * 60

/-- `fmt_dur` (bot.py:70-76): `"??"` for a falsy duration, else
`h:mm:ss` when there is an hour part and `m:ss` otherwise. -/
def fmt_dur (sec : Nat) : String :=
  if sec = 0 then "??"
  else
    let m := sec / 60
    let s := sec % 60
    let h := m / 60
    let m2 := m % 60
    if h ≠ 0 then toString h ++ ":" ++ pad2 m2 ++ ":" ++ pad2 s
    else toString m2 ++ ":" ++ pad2 s

/-- The resolved media information consumed by `on_url`: only the keys the
program reads are modelled. -/
structure MediaInfo where
  title : Option String
  uploader : Option String
  channel : Option String
  duration : Option Nat
  formats : List Fmt
deriving DecidableEq

/-- `pick_audio_choice` (bot.py:203-218): the format id of the first
audio-only m4a/mp4 candidate, else None. -/
def pick_audio_choice (formats : List Fmt) : Option String :=
  match formats.find? (fun f =>
      decide (f.vcodec = some "none") && decide (f.acodec ≠ some "none") &&
        (decide (f.ext = some "m4a") || decide (f.ext = some "mp4"))) with
  | some f => f.format_id
  | none => none

/-- What `on_url` (bot.py:458-521) does with a successfully resolved
MediaInfo: either the too-long rejection reply (before any ladder or
session exists), or the quality menu together with the session written
into `STATE`. -/
inductive ScanResult
  | tooLong (reply : String)
  | menu (shown : List Nat) (buttons : List String) (session : Session)
deriving DecidableEq

def isMenu : ScanResult → Bool
  | ScanResult.menu _ _ _ => true
  | ScanResult.tooLong _ => false

/-- `on_url` (bot.py:458-521) after `extract_info` succeeded: the duration
gate (`if duration and duration > MAX_DURATION_SEC`), then the ladder, the
shown buckets (at least `MIN_QUALITY_P`), the rendered buttons and the
session entry. -/
def on_url (url : String) (info : MediaInfo) (min_q : Nat) : ScanResult :=
  let duration := info.duration.getD 0
  if duration ≠ 0 ∧ MAX_DURATION_SEC < duration then
    ScanResult.tooLong ("❌ TOO LONG: " ++ fmt_dur duration ++ " (MAX 3h)")
  else
    let r := build_video_choices info.formats duration
    let qs_shown := r.1.filter (fun q => decide (min_q ≤ q))
    let buttons := qs_shown.map (fun q =>
      "🎥 " ++ toString q ++ "p  [" ++ fmt_mb (lookupN r.2.2 q) ++ "]")
    ScanResult.menu qs_shown buttons
      ⟨url, info.title.getD "NO_TITLE", duration, r.2.1, r.2.2,
        pick_audio_choice info.formats⟩

/-- C9: the duration ceiling is enforced exactly once, at resolution time:
every MediaInfo with duration 14400 s is rejected with the reply
formatting the duration as "4:00:00", before any ladder or session is
built (the result carries neither); and `run_download` never re-checks the
duration — its trace is invariant under changing the session's stored
duration. -/
theorem C9_duration_gate_once :
    (∀ (url : String) (t u c : Option String) (fs : List Fmt) (minq : Nat),
        on_url url ⟨t, u, c, some 14400, fs⟩ minq =
          ScanResult.tooLong "❌ TOO LONG: 4:00:00 (MAX 3h)")
    ∧ (∀ (s : Session) (d2 cid mid : Nat) (mode : Mode) (fid : Option String)
          (fetch : FetchOutcome) (send : SendOutcome),
        run_download [((cid, mid), ⟨s.url, s.title, d2, s.q_to_fmt, s.q_sizes, s.audio_fmt_id⟩)]
            cid mid mode fid fetch send =
          run_download [((cid, mid), s)] cid mid mode fid fetch send) := by
  constructor
  · intro url t u c fs minq
    unfold on_url
    dsimp only [Option.getD]
    rw [if_pos (by decide)]
    decide
  · intro s d2 cid mid mode fid fetch send
    have hl : ∀ x : Session, lookupN [((cid, mid), x)] (cid, mid) = some x := by
      intro x
      simp [lookupN]
    unfold run_download
    rw [hl, hl]
    cases mode <;> rfl

/-- C10: a MediaInfo whose duration is absent (or zero) is never blocked
by the 3-hour limit: `on_url` treats it exactly like duration 0 and
proceeds to build the menu, so a ladder and a session are created. -/
theorem C10_unknown_duration_not_blocked (t u c : Option String) (fs : List Fmt)
    (url : String) (minq : Nat) :
    on_url url ⟨t, u, c, none, fs⟩ minq = on_url url ⟨t, u, c, some 0, fs⟩ minq
    ∧ isMenu (on_url url ⟨t, u, c, none, fs⟩ minq) = true := by
  constructor
  · rfl
  · unfold on_url
    dsimp only [Option.getD]
    rw [if_neg (by simp)]
    rfl

/-! ### The dispatch loop (claim C8) -/

/-- Counters observed while `_queue_loop` drains a finite queue. -/
structure LoopTrace where
  acquired : Nat
  released : Nat
  ran : Nat
  crashed : Bool
deriving DecidableEq

/-- `_queue_loop` (bot.py:293-308) over a finite queue of job bodies
(`true` means the body raises). Each popped job acquires the admission
slot, runs, and the `finally` releases the slot even on a raise — but the
loop has no `except` clause, so a raise then propagates out of the
`while True` and the dispatch thread dies; the remaining queued jobs are
never dispatched (and `_queue_worker_started` stays `True`, so no new
worker ever starts). -/
def _queue_loop (jobs : List Bool) : LoopTrace :=
  match jobs with
  | [] => ⟨0, 0, 0, false⟩
  | raises :: rest =>
    if raises then ⟨1, 1, 1, true⟩
    else
      ⟨(_queue_loop rest).acquired + 1, (_queue_loop rest).released + 1,
       (_queue_loop rest).ran + 1, (_queue_loop rest).crashed⟩

/-- C8, evaluated at the failing input (a queue holding one raising job
followed by one normal job): the slot of the raising job is released
(released = acquired, the `finally` runs), but the loop crashes and only
one of the two queued jobs is ever dispatched — the code contradicts the
claim's second half. -/
theorem C8_loop_crash :
    (_queue_loop [true, false]).released = (_queue_loop [true, false]).acquired
    ∧ (_queue_loop [true, false]).crashed = true
    ∧ (_queue_loop [true, false]).ran = 1 := by decide

/-! ### The progress tracker (claim C7) -/

def PROGRESS_EDIT_SECONDS : ℚ := 2

/-- `progress_bar` (bot.py:87-90): a 10-segment bar with
`int(round(pct / 10))` filled segments, clamped to [0, 10]. -/
def progress_bar (pct : ℚ) : String :=
  String.mk (List.replicate (max 0 (min 10 (pyRound (pct / 10)))).toNat '▰' ++
    List.replicate (10 - (max 0 (min 10 (pyRound (pct / 10)))).toNat) '▱')

/-- One progress-hook sample (the dict yt-dlp passes, restricted to the
keys the hook reads), plus the wall-clock time of the sample. -/
structure Sample where
  status : String
  total_bytes : Option Nat
  total_bytes_estimate : Option Nat
  downloaded_bytes : Option Nat
  speed : Option Nat
  eta : Option Nat
  time : ℚ
deriving DecidableEq

/-- The effective total of a sample:
`total_bytes or total_bytes_estimate`, then the truthiness guard
`if not total: return` (bot.py:234-237). -/
def totalOf (d : Sample) : Option Nat :=
  match pyOrN d.total_bytes d.total_bytes_estimate with
  | some n => if n = 0 then none else some n
  | none => none

/-- The rendered status text (bot.py:239-255). -/
def renderText (d : Sample) (total : Nat) : String :=
  "⛓️ DOWNLOADING...\n" ++ progress_bar ((d.downloaded_bytes.getD 0 : ℚ) / (total : ℚ) * 100)
    ++ "  " ++ one_dec ((d.downloaded_bytes.getD 0 : ℚ) / (total : ℚ) * 100) ++ "%\n⚡ SPD: "
    ++ (match d.speed with
        | some s => if s = 0 then "?" else two_dec ((s : ℚ) / (1024 * 1024)) ++ "MB/s"
        | none => "?")
    ++ "\n⏱️ ETA: "
    ++ (match d.eta with
        | some e => toString e ++ "s"
        | none => "?")

/-- The tracker's mutable state (bot.py:227-228). -/
structure TState where
  last_edit : ℚ
  last_text : String
deriving DecidableEq

def tInit : TState := ⟨0, ""⟩

/-- `ProgressTracker.hook` (bot.py:231-263) on one sample: skip non-download
statuses and unknown totals, throttle on the time since the last
successful edit, suppress unchanged text, and — only when the edit call
succeeds (`editOk`) — record the new text and restart the clock. The
second component is the emitted render, if any. -/
def hook (st : TState) (d : Sample) (editOk : Bool) : TState × Option String :=
  if d.status ≠ "downloading" then (st, none)
  else
    match totalOf d with
    | none => (st, none)
    | some total =>
      if d.time - st.last_edit < PROGRESS_EDIT_SECONDS then (st, none)
      else
        if renderText d total = st.last_text then (st, none)
        else if editOk then (⟨d.time, renderText d total⟩, some (renderText d total))
        else (st, none)

/-- Fold `hook` over a sampled byte stream, collecting the emitted renders
with their emission times. -/
def hookRun (st : TState) (ds : List (Sample × Bool)) : TState × List (ℚ × String) :=
  match ds with
  | [] => (st, [])
  | (d, ok) :: rest =>
    ((hookRun (hook st d ok).1 rest).1,
     (match (hook st d ok).2 with | some t => [(d.time, t)] | none => []) ++
       (hookRun (hook st d ok).1 rest).2)

theorem hookRun_cons (st : TState) (d : Sample) (ok : Bool) (rest : List (Sample × Bool)) :
    hookRun st ((d, ok) :: rest) =
      ((hookRun (hook st d ok).1 rest).1,
       (match (hook st d ok).2 with | some t => [(d.time, t)] | none => []) ++
         (hookRun (hook st d ok).1 rest).2) := rfl

/-- Every hook call either leaves the state unchanged and emits nothing, or
emits a render at the sample time, at least the throttle interval after the
previous successful edit, with a text different from the previous one. -/
theorem hook_cases (st : TState) (d : Sample) (ok : Bool) :
    hook st d ok = (st, none) ∨
    ∃ txt, hook st d ok = (⟨d.time, txt⟩, some txt)
      ∧ st.last_edit + 2 ≤ d.time ∧ txt ≠ st.last_text := by
  unfold hook
  by_cases h1 : d.status ≠ "downloading"
  · left
    rw [if_pos h1]
  · rw [if_neg h1]
    cases ht : totalOf d with
    | none => left; rfl
    | some total =>
      dsimp only
      by_cases h2 : d.time - st.last_edit < PROGRESS_EDIT_SECONDS
      · left
        rw [if_pos h2]
      · rw [if_neg h2]
        by_cases h3 : renderText d total = st.last_text
        · left
          rw [if_pos h3]
        · rw [if_neg h3]
          cases ok with
          | false => left; rfl
          | true =>
            right
            refine ⟨renderText d total, rfl, ?_, h3⟩
            have hge : PROGRESS_EDIT_SECONDS ≤ d.time - st.last_edit := not_lt.mp h2
            unfold PROGRESS_EDIT_SECONDS at hge
            linarith

/-- The run invariant: emission times form a chain 2 apart anchored at the
state's last-edit time, emitted texts form a no-repeat chain anchored at
the state's last text, and emission times are a subsequence of the sample
times. -/
theorem hookRun_invariant (ds : List (Sample × Bool)) :
    ∀ st : TState,
      List.Chain (fun x y => x + 2 ≤ y) st.last_edit ((hookRun st ds).2.map Prod.fst)
      ∧ List.Chain (fun x y => x ≠ y) st.last_text ((hookRun st ds).2.map Prod.snd)
      ∧ ((hookRun st ds).2.map Prod.fst).Sublist (ds.map (fun p => p.1.time)) := by
  induction ds with
  | nil => exact fun st => ⟨List.Chain.nil, List.Chain.nil, by simp [hookRun]⟩
  | cons p rest ih =>
    intro st
    obtain ⟨d, ok⟩ := p
    rcases hook_cases st d ok with h | ⟨txt, h, hle, hne⟩
    · rw [hookRun_cons, h]
      dsimp only
      simp only [List.nil_append, List.map_cons]
      obtain ⟨c1, c2, c3⟩ := ih st
      exact ⟨c1, c2, List.Sublist.cons _ c3⟩
    · rw [hookRun_cons, h]
      dsimp only
      simp only [List.singleton_append, List.map_cons]
      obtain ⟨c1, c2, c3⟩ := ih ⟨d.time, txt⟩
      exact ⟨List.Chain.cons hle c1, List.Chain.cons (Ne.symm hne) c2,
        List.Sublist.cons₂ _ c3⟩

/-- A chain of rationals each at least 2 above the previous one reaches at
least `x + 2 * length` at some member. -/
theorem chain_two_le_bound (xs : List ℚ) :
    ∀ x : ℚ, List.Chain (fun u v => u + 2 ≤ v) x xs → xs ≠ [] →
      ∃ y ∈ xs, x + 2 * xs.length ≤ y := by
  induction xs with
  | nil => intro x _ hne; exact absurd rfl hne
  | cons z rest ih =>
    intro x h _
    cases h with
    | cons hxz hrest =>
      cases hr : rest with
      | nil =>
        refine ⟨z, by simp, ?_⟩
        subst hr
        have hlen : ([z] : List ℚ).length = 1 := rfl
        rw [hlen]
        push_cast
        linarith
      | cons w rest2 =>
        subst hr
        obtain ⟨y, hy, hle⟩ := ih z hrest (by simp)
        refine ⟨y, List.mem_cons_of_mem _ hy, ?_⟩
        simp only [List.length_cons] at hle ⊢
        push_cast at hle ⊢
        linarith

/-- C7: over any monotonically increasing byte stream sampled faster than
the 2-second throttle interval inside a window [a, b], the tracker emits
at most (b - a)/2 + 1 renders; no two consecutively emitted texts are
identical; a sample with unknown total is ignored entirely (state
untouched, nothing emitted); and the suppression clock (`last_edit`)
changes only on a successful render. -/
theorem C7_progress_throttle (ds : List (Sample × Bool)) (a b : ℚ)
    (hab : a ≤ b)
    (hin : ∀ p ∈ ds, a ≤ p.1.time ∧ p.1.time ≤ b)
    (hfast : List.Chain' (fun p q : Sample × Bool => q.1.time - p.1.time < 2) ds)
    (hmono : List.Chain' (fun p q : Sample × Bool =>
        p.1.downloaded_bytes.getD 0 ≤ q.1.downloaded_bytes.getD 0) ds) :
    (((hookRun tInit ds).2.length : ℚ) ≤ (b - a) / 2 + 1)
    ∧ List.Chain' (fun e1 e2 : ℚ × String => e1.2 ≠ e2.2) (hookRun tInit ds).2
    ∧ (∀ (st : TState) (d : Sample) (ok : Bool), totalOf d = none → hook st d ok = (st, none))
    ∧ (∀ (st : TState) (d : Sample) (ok : Bool),
        (hook st d ok).1.last_edit ≠ st.last_edit → (hook st d ok).2.isSome = true) := by
  obtain ⟨c1, c2, c3⟩ := hookRun_invariant ds tInit
  refine ⟨?_, ?_, ?_, ?_⟩
  · cases hem : (hookRun tInit ds).2 with
    | nil =>
      simp only [hem, List.length_nil, Nat.cast_zero]
      linarith
    | cons e es =>
      rw [hem] at c1 c3
      have hmemt : ∀ y ∈ (e :: es).map Prod.fst, a ≤ y ∧ y ≤ b := by
        intro y hy
        obtain ⟨p, hp, hpy⟩ := List.mem_map.mp (c3.subset hy)
        exact hpy ▸ hin p hp
      have hchain : List.Chain (fun u v => u + 2 ≤ v) e.1 (es.map Prod.fst) := by
        simp only [List.map_cons] at c1
        cases c1 with
        | cons _ h => exact h
      have h1 : a ≤ e.1 := (hmemt e.1 (by simp)).1
      cases hes : es with
      | nil =>
        subst hes
        simp only [hem, List.length_cons, List.length_nil, Nat.cast_add, Nat.cast_zero,
          Nat.cast_one]
        have h2 : e.1 ≤ b := (hmemt e.1 (by simp)).2
        linarith
      | cons e2 es2 =>
        obtain ⟨y, hy, hle⟩ :=
          chain_two_le_bound (es.map Prod.fst) e.1 hchain (by simp [hes])
        have h2 : y ≤ b := (hmemt y (List.mem_cons_of_mem _ hy)).2
        have hlen : ((es.map Prod.fst).length : ℚ) = (es.length : ℚ) := by simp
        rw [hlen] at hle
        rw [hes] at hle
        simp only [List.length_cons] at hle
        push_cast at hle
        simp only [hem, List.length_cons]
        push_cast
        linarith
  · have hstr : List.Chain' (fun s1 s2 : String => s1 ≠ s2)
        ((hookRun tInit ds).2.map Prod.snd) := by
      cases hem : (hookRun tInit ds).2 with
      | nil => simp
      | cons e es =>
        rw [hem] at c2
        simp only [List.map_cons] at c2 ⊢
        cases c2 with
        | cons _ h => exact h
    exact (List.chain'_map Prod.snd).mp hstr
  · intro st d ok htot
    unfold hook
    by_cases h1 : d.status ≠ "downloading"
    · rw [if_pos h1]
    · rw [if_neg h1, htot]
  · intro st d ok h
    rcases hook_cases st d ok with hc | ⟨txt, hc, _, _⟩
    · rw [hc] at h
      exact absurd rfl h
    · rw [hc]
      rfl

/-- Two downloading samples 1 s apart with known total, increasing bytes;
the edit call succeeds. -/
def c7ds : List (Sample × Bool) :=
  [(⟨"downloading", some 100, none, some 10, some 1048576, some 5, 2⟩, true),
   (⟨"downloading", some 100, none, some 20, some 1048576, some 4, 3⟩, true)]

theorem C7_witness :
    ((2 : ℚ) ≤ 3
     ∧ (∀ p ∈ c7ds, (2 : ℚ) ≤ p.1.time ∧ p.1.time ≤ 3)
     ∧ List.Chain' (fun p q : Sample × Bool => q.1.time - p.1.time < 2) c7ds
     ∧ List.Chain' (fun p q : Sample × Bool =>
         p.1.downloaded_bytes.getD 0 ≤ q.1.downloaded_bytes.getD 0) c7ds)
    ∧ ((((hookRun tInit c7ds).2.length : ℚ) ≤ ((3 : ℚ) - 2) / 2 + 1)
       ∧ List.Chain' (fun e1 e2 : ℚ × String => e1.2 ≠ e2.2) (hookRun tInit c7ds).2
       ∧ (∀ (st : TState) (d : Sample) (ok : Bool), totalOf d = none →
           hook st d ok = (st, none))
       ∧ (∀ (st : TState) (d : Sample) (ok : Bool),
           (hook st d ok).1.last_edit ≠ st.last_edit → (hook st d ok).2.isSome = true)) := by
  have h1 : (2 : ℚ) ≤ 3 := by norm_num
  have h2 : ∀ p ∈ c7ds, (2 : ℚ) ≤ p.1.time ∧ p.1.time ≤ 3 := by decide
  have h3 : List.Chain' (fun p q : Sample × Bool => q.1.time - p.1.time < 2) c7ds := by
    norm_num [c7ds, List.chain'_cons]
  have h4 : List.Chain' (fun p q : Sample × Bool =>
      p.1.downloaded_bytes.getD 0 ≤ q.1.downloaded_bytes.getD 0) c7ds := by
    norm_num [c7ds, List.chain'_cons, Option.getD]
  exact ⟨⟨h1, h2, h3, h4⟩, C7_progress_throttle c7ds 2 3 h1 h2 h3 h4⟩

end Bot
